import Mathlib

/-!
Shallow embedding of `cmd/litefs/mount.go` (the LiteFS mount command).

The Go source is command glue: it parses and validates the configuration,
instantiates exactly one `Leaser` variant (consul or static), opens the
`Store`, mounts the FUSE file system, serves HTTP, waits for the store's
readiness channel and then starts an optional exec subcommand.  Shutdown
(`Close`) closes the HTTP server, unmounts the file system and closes the
store, keeping the first error.

Effectful calls (listening, opening consul, opening the store, mounting,
hostname lookup, reading config files) are modelled by an explicit
environment of outcomes; the control flow of the Go functions is transcribed
over it, and each step performed is recorded in an event trace so that
ordering claims can be stated about the traces.
-/

namespace LiteFS

/-- Errors are carried as plain messages, as in the Go code. -/
abbrev Err := String

/-- Go `time.Duration`: a signed count of nanoseconds. -/
abbrev Duration := Int

/-- The `consul:` section of the configuration (`ConsulConfig`). -/
structure ConsulConfig where
  url : String
  hostname : String
  advertiseURL : String
  key : String
  ttl : Duration
  lockDelay : Duration
  deriving Repr, DecidableEq

/-- The `static:` section of the configuration (`StaticConfig`). -/
structure StaticConfig where
  primary : Bool
  hostname : String
  advertiseURL : String
  deriving Repr, DecidableEq

/-- The `retention:` section: horizon duration and sweep interval. -/
structure RetentionConfig where
  duration : Duration
  monitorInterval : Duration
  deriving Repr, DecidableEq

/-- The `http:` section: bind address. -/
structure HTTPConfig where
  addr : String
  deriving Repr, DecidableEq

/-- The parsed configuration consumed by the mount command (`Config`).
`consul = some _` / `static = some _` model the Go nil / non-nil section
pointers. -/
structure Config where
  mountDir : String
  dataDir : String
  exec : String
  candidate : Bool
  debug : Bool
  strictVerify : Bool
  retention : RetentionConfig
  http : HTTPConfig
  consul : Option ConsulConfig
  static : Option StaticConfig
  deriving Repr, DecidableEq

/-- `MountCommand.Validate`: returns the first applicable error message, or
`none` when the configuration is accepted (transcribed from mount.go
lines 120-137). -/
def Validate (cfg : Config) : Option Err :=
  if cfg.mountDir = "" then some "mount directory required"
  else if cfg.dataDir = "" then some "data directory required"
  else if cfg.mountDir = cfg.dataDir then
    some "mount directory and data directory cannot be the same path"
  else if cfg.consul.isSome && cfg.static.isSome then
    some "cannot specify both consul and static lease modes"
  else if cfg.consul.isNone && cfg.static.isNone then
    some "must specify a lease mode (consul, static)"
  else none

/-- A configuration is malformed exactly when one of the five `Validate`
conditions holds. -/
def Malformed (cfg : Config) : Prop :=
  cfg.mountDir = "" ∨ cfg.dataDir = "" ∨ cfg.mountDir = cfg.dataDir ∨
    (cfg.consul.isSome ∧ cfg.static.isSome) ∨
    (cfg.consul.isNone ∧ cfg.static.isNone)

instance (cfg : Config) : Decidable (Malformed cfg) := by
  unfold Malformed; infer_instance

/-- Steps the mount command performs, recorded in order in a trace. -/
inductive Event where
  | storeInit                                           -- initStore completed
  | httpListenOk                                        -- HTTP server listening
  | consulNew (hostname advertiseURL : String)          -- consul.NewLeaser
  | consulOpenOk                                        -- consul leaser.Open succeeded
  | staticNew (primary : Bool) (hostname advertiseURL : String) -- litefs.NewStaticLeaser
  | leaserAssign                                        -- c.Store.Leaser = c.Leaser
  | storeOpenOk                                         -- c.Store.Open succeeded
  | expvarPublish (name : String)                       -- expvar.Publish inside the once
  | fsMount                                             -- FUSE file system mounted
  | httpServe                                           -- HTTP server starts serving
  | readyWait                                           -- Run blocks on the select
  | ctxCancel                                           -- ctx.Done fired first
  | readyFired                                          -- Store.ReadyCh fired
  | subStart (args : List String)                       -- exec subprocess started
  | httpClose                                           -- HTTPServer.Close
  | fsUnmount                                           -- FileSystem.Unmount
  | storeClose                                          -- Store.Close
  | subKill                                             -- exec subprocess terminated
  deriving Repr, DecidableEq

/-- The consul leaser with its configuration knobs (`consul.Leaser` fields the
mount command writes: Key, TTL, LockDelay; plus the constructor arguments). -/
structure ConsulLeaser where
  url : String
  hostname : String
  advertiseURL : String
  key : String
  ttl : Duration
  lockDelay : Duration
  deriving Repr, DecidableEq

/-- `consul.NewLeaser` lives outside this file's source; its built-in default
knob values are abstracted as parameters. -/
structure LeaserDefaults where
  key : String
  ttl : Duration
  lockDelay : Duration
  deriving Repr, DecidableEq

/-- The two concrete leaser variants the mount command can instantiate. -/
inductive Leaser where
  | consul (l : ConsulLeaser)
  | staticL (primary : Bool) (hostname advertiseURL : String)
  deriving Repr, DecidableEq

/-- The fields of `litefs.Store` that the mount command sets. -/
structure Store where
  dataDir : String
  candidate : Bool
  debug : Bool
  strictVerify : Bool
  retentionDuration : Duration
  retentionMonitorInterval : Duration
  leaser : Option Leaser
  deriving Repr, DecidableEq

/-- Process-global state: the package-level `expvarOnce sync.Once` and the
process-wide expvar registry (list of names published, in order). -/
structure World where
  expvarOnceDone : Bool
  published : List String
  deriving Repr, DecidableEq

/-- A fresh process: the once has not fired, nothing published. -/
def World.init : World := { expvarOnceDone := false, published := [] }

/-- Outcomes of the effectful calls Run makes, fixed up front so Run itself
is a pure function of the environment. -/
structure Env where
  httpListen : Except Err Unit          -- http.Server.Listen
  httpPort : Nat                        -- http.Server.Port
  osHostname : Except Err String        -- os.Hostname
  advertiseURLFn : Option String        -- c.AdvertiseURLFn (none = nil)
  consulOpen : Except Err Unit          -- consul leaser.Open
  storeOpen : Except Err Unit           -- litefs.Store.Open
  fuseMount : Except Err Unit           -- fuse.FileSystem.Mount
  ctxDoneBeforeReady : Bool             -- ctx.Done fires before Store.ReadyCh
  ctxErr : Err                          -- ctx.Err.
  execParse : Except Err (List String)  -- shellwords.Parse of Config.exec
  execStart : Except Err Unit           -- exec.Cmd.Start

/-- `initStore` (mount.go lines 263-271): builds the store from the
configuration; never fails. -/
def initStore (cfg : Config) : Store :=
  { dataDir := cfg.dataDir
    candidate := cfg.candidate
    debug := cfg.debug
    strictVerify := cfg.strictVerify
    retentionDuration := cfg.retention.duration
    retentionMonitorInterval := cfg.retention.monitorInterval
    leaser := none }

/-- Hostname resolution in `initConsul` (lines 227-232): use the configured
hostname, falling back to `os.Hostname` when it is empty. -/
def initConsulHostname (env : Env) (cc : ConsulConfig) : Except Err String :=
  if cc.hostname = "" then env.osHostname else .ok cc.hostname

/-- Advertise-URL resolution in `initConsul` (lines 236-242): start from the
configured URL, let the test injection function override it, then default to
the hostname and HTTP port when still empty and the hostname is known. -/
def initConsulAdvertiseURL (env : Env) (cc : ConsulConfig) (hostname : String) :
    String :=
  let adv := match env.advertiseURLFn with
    | some f => f
    | none => cc.advertiseURL
  if adv = "" && hostname ≠ "" then
    "http://" ++ hostname ++ ":" ++ toString env.httpPort
  else adv

/-- The consul leaser as `initConsul` configures it (lines 244-253):
`consul.NewLeaser` with its built-in defaults, then each knob overridden
exactly when configured (non-empty key, positive TTL, positive lock delay). -/
def initConsulLeaser (defaults : LeaserDefaults) (cc : ConsulConfig)
    (hostname advertiseURL : String) : ConsulLeaser :=
  let l : ConsulLeaser :=
    { url := cc.url, hostname := hostname, advertiseURL := advertiseURL
      key := defaults.key, ttl := defaults.ttl, lockDelay := defaults.lockDelay }
  let l := if cc.key ≠ "" then { l with key := cc.key } else l
  let l := if cc.ttl > 0 then { l with ttl := cc.ttl } else l
  if cc.lockDelay > 0 then { l with lockDelay := cc.lockDelay } else l

/-- `initConsul` (lines 223-261): resolve hostname and advertise URL, build
and configure the leaser, open it; on success the leaser is assigned. -/
def initConsul (defaults : LeaserDefaults) (env : Env) (cc : ConsulConfig) :
    List Event × Except Err Leaser :=
  match initConsulHostname env cc with
  | .error e => ([], .error e)
  | .ok hostname =>
    let adv := initConsulAdvertiseURL env cc hostname
    let l := initConsulLeaser defaults cc hostname adv
    match env.consulOpen with
    | .error e =>
      ([.consulNew hostname adv], .error ("cannot connect to consul: " ++ e))
    | .ok _ =>
      ([.consulNew hostname adv, .consulOpenOk], .ok (.consul l))

/-- The leaser selection in `Run` (lines 183-192): consul when the consul
section is present, otherwise the static leaser from the static section.
A configuration with neither section would dereference a nil pointer in Go;
`Validate` rules it out. -/
def instantiateLeaser (defaults : LeaserDefaults) (env : Env) (cfg : Config) :
    List Event × Except Err Leaser :=
  match cfg.consul with
  | some cc =>
    match initConsul defaults env cc with
    | (evs, .error e) => (evs, .error ("cannot init consul: " ++ e))
    | (evs, .ok l) => (evs, .ok l)
  | none =>
    match cfg.static with
    | some sc =>
      ([.staticNew sc.primary sc.hostname sc.advertiseURL],
       .ok (.staticL sc.primary sc.hostname sc.advertiseURL))
    | none => ([], .error "panic: nil static config")

/-- Result of `openStore`. -/
structure OpenOut where
  events : List Event
  world : World
  result : Except Err Store
  deriving Repr

/-- `openStore` (lines 273-283): assign the leaser to the store, open the
store, and on success publish the `store` expvar under the package-global
`sync.Once`. -/
def openStore (env : Env) (w : World) (st : Store) (l : Leaser) : OpenOut :=
  let st2 := { st with leaser := some l }
  match env.storeOpen with
  | .error e => { events := [.leaserAssign], world := w, result := .error e }
  | .ok _ =>
    if w.expvarOnceDone then
      { events := [.leaserAssign, .storeOpenOk], world := w, result := .ok st2 }
    else
      { events := [.leaserAssign, .storeOpenOk, .expvarPublish "store"]
        world := { expvarOnceDone := true, published := w.published ++ ["store"] }
        result := .ok st2 }

/-- `execCmd` (lines 308-332): no-op when no exec subcommand is configured;
otherwise parse the command line and start the subprocess. -/
def execCmd (env : Env) (cfg : Config) : List Event × Except Err Unit :=
  if cfg.exec = "" then ([], .ok ())
  else
    match env.execParse with
    | .error e => ([], .error ("cannot parse exec command: " ++ e))
    | .ok args =>
      match env.execStart with
      | .error e => ([], .error ("cannot start exec command: " ++ e))
      | .ok _ => ([.subStart args], .ok ())

/-- Result of `Run`: the trace of steps performed, the final process-global
state, and the returned error, if any. -/
structure RunOut where
  events : List Event
  world : World
  result : Except Err Unit
  deriving Repr

/-- The tail of `Run` from the readiness select on (lines 206-220): either the
context is cancelled first and its error is returned, or the readiness signal
fires and the exec subcommand step runs. -/
def runFromReady (env : Env) (cfg : Config) (w : World) (pre : List Event) :
    RunOut :=
  if env.ctxDoneBeforeReady then
    { events := pre ++ [.readyWait, .ctxCancel], world := w
      result := .error env.ctxErr }
  else
    match execCmd env cfg with
    | (evs3, .error e) =>
      { events := pre ++ [.readyWait, .readyFired] ++ evs3, world := w
        result := .error ("cannot exec: " ++ e) }
    | (evs3, .ok _) =>
      { events := pre ++ [.readyWait, .readyFired] ++ evs3, world := w
        result := .ok () }

/-- The tail of `Run` from `openStore` on (lines 194-220): open store, mount
the file system, serve HTTP, then wait for readiness. -/
def runFromOpen (env : Env) (cfg : Config) (base : List Event) (o : OpenOut) :
    RunOut :=
  match o.result with
  | .error e =>
    { events := base ++ o.events, world := o.world
      result := .error ("cannot open store: " ++ e) }
  | .ok _ =>
    match env.fuseMount with
    | .error e =>
      { events := base ++ o.events, world := o.world
        result := .error ("cannot init file system: " ++ e) }
    | .ok _ =>
      runFromReady env cfg o.world (base ++ o.events ++ [.fsMount, .httpServe])

/-- `MountCommand.Run` (lines 173-221), transcribed step by step: init store,
listen HTTP, instantiate the leaser, open the store, mount the file system,
serve HTTP, wait for readiness (or context cancellation), exec subcommand. -/
def Run (defaults : LeaserDefaults) (env : Env) (cfg : Config) (w : World) :
    RunOut :=
  match env.httpListen with
  | .error e =>
    { events := [.storeInit], world := w
      result := .error ("cannot init http server: " ++ e) }
  | .ok _ =>
    match instantiateLeaser defaults env cfg with
    | (evs1, .error e) =>
      { events := [.storeInit, .httpListenOk] ++ evs1, world := w
        result := .error e }
    | (evs1, .ok l) =>
      runFromOpen env cfg ([.storeInit, .httpListenOk] ++ evs1)
        (openStore env w (initStore cfg) l)

/-- Event `a` occurs (at least once) strictly before event `b` in trace `l`. -/
def Precedes (l : List Event) (a b : Event) : Prop :=
  ∃ l1 l2, l = l1 ++ l2 ∧ a ∈ l1 ∧ b ∈ l2

/-- Is this event the construction of a leaser variant? -/
def Event.isLeaserNew : Event → Bool
  | .consulNew _ _ => true
  | .staticNew _ _ _ => true
  | _ => false

/-- State of the mount command at shutdown: for each component, `none` when it
was never initialized, `some r` when it was, with `r` the error its close call
returns (`none` = success). -/
structure CloseEnv where
  httpServer : Option (Option Err)
  fileSystem : Option (Option Err)
  store : Option (Option Err)
  deriving Repr, DecidableEq

/-- `MountCommand.Close` (lines 151-171): close the HTTP server, unmount the
file system, close the store — each only if initialized — keeping the first
non-nil error while still running every later step. -/
def Close (e : CloseEnv) : List Event × Option Err :=
  let s1 : List Event × Option Err :=
    match e.httpServer with
    | none => ([], none)
    | some r => ([.httpClose], r)
  let s2 : List Event × Option Err :=
    match e.fileSystem with
    | none => ([], none)
    | some r => ([.fsUnmount], r)
  let s3 : List Event × Option Err :=
    match e.store with
    | none => ([], none)
    | some r => ([.storeClose], r)
  (s1.1 ++ s2.1 ++ s3.1, (s1.2.orElse fun _ => s2.2).orElse fun _ => s3.2)

/-- A sample fully initialized shutdown state whose close calls all
succeed. -/
def sampleCloseEnv : CloseEnv :=
  { httpServer := some none, fileSystem := some none, store := some none }

/-- A component's close outcome that contributes no error: the component was
never initialized, or its close call returned nil. -/
def benign (r : Option (Option Err)) : Prop := r = none ∨ r = some none

/-- Did this `Store.Open` outcome succeed? -/
def isOkE : Except Err Unit → Bool
  | .ok _ => true
  | .error _ => false

/-- Modelled from the spec: the top-level shutdown orchestration.  The
command's `main` entry point (which decides when the subprocess context is
cancelled relative to `Close`) is not part of the mount command source; per
the spec, the subprocess supervisor's shutdown "must be sequenced after the
Store's own shutdown", so the teardown runs `Close` — whose store step is
transcribed from the source — and only afterwards cancels the context of the
subprocess started by `execCmd`, which kills it when one is running. -/
def shutdownSeq (e : CloseEnv) (subprocessRunning : Bool) : List Event :=
  (Close e).1 ++ (if subprocessRunning then [.subKill] else [])

instance : Inhabited Config :=
  ⟨{ mountDir := "", dataDir := "", exec := "", candidate := false
     debug := false, strictVerify := false
     retention := { duration := 0, monitorInterval := 0 }
     http := { addr := "" }, consul := none, static := none }⟩

/-- One `openStore` call as it affects the process-global state: `ok` is the
outcome of `litefs.Store.Open`.  Publication happens only after a successful
open, and only if the package-global once has not fired yet. -/
def openStoreWorld (ok : Except Err Unit) (w : World) : World :=
  (openStore { httpListen := .ok (), httpPort := 0, osHostname := .error ""
               advertiseURLFn := none, consulOpen := .ok (), storeOpen := ok
               fuseMount := .ok (), ctxDoneBeforeReady := false, ctxErr := ""
               execParse := .ok [], execStart := .ok () }
     w (initStore default) (.staticL false "" "")).world

/-- A whole process lifetime of `openStore` calls (each with its own
`Store.Open` outcome), threading the process-global state through. -/
def runOpenStores (outcomes : List (Except Err Unit)) (w : World) : World :=
  match outcomes with
  | [] => w
  | ok :: rest => runOpenStores rest (openStoreWorld ok w)

/-- Modelled from the spec: the one-time registration as §9 of the spec says
to build it — "an explicit, caller-owned registry object created during
startup", with an explicit already-initialized check on that object, "rather
than implicit global state".  Each mount command owns its registry; nothing
is shared between commands. -/
structure CallerRegistry where
  done : Bool
  published : List String
  deriving Repr, DecidableEq

/-- Modelled from the spec: a fresh caller-owned registry, created during the
owning command's startup. -/
def CallerRegistry.init : CallerRegistry := { done := false, published := [] }

/-- Modelled from the spec: `openStore`'s publication step against the
caller-owned registry — publish iff this caller's registry is not yet
initialized. -/
def callerOwnedPublish (ok : Except Err Unit) (reg : CallerRegistry) :
    CallerRegistry :=
  match ok with
  | .error _ => reg
  | .ok _ =>
    if reg.done then reg
    else { done := true, published := reg.published ++ ["store"] }

/-- Outcome of one `ReadConfigFile` call: success, a does-not-exist error
(`os.IsNotExist`), or any other read error. -/
inductive ReadOutcome where
  | ok
  | notExist
  | failed (e : Err)
  deriving Repr, DecidableEq

/-- The pieces of the file system that `parseConfig` consults. -/
structure ConfigFS where
  read : String → ReadOutcome      -- ReadConfigFile at a path
  abs : String → Except Err String -- filepath.Abs
  home : Option String             -- user.Current().HomeDir (none = no user)

/-- `configSearchPaths` (lines 142-149): the working directory, then the
home directory when available and non-empty, then /etc. -/
def configSearchPaths (home : Option String) : List String :=
  ["litefs.yml"] ++
    (match home with
     | some h => if h ≠ "" then [h ++ "/litefs.yml"] else []
     | none => []) ++
    ["/etc/litefs.yml"]

/-- The error `parseConfig` returns for an explicit path, mirroring how Go
surfaces `ReadConfigFile`'s own error unchanged (including not-exist). -/
def readOutcomeErr (path : String) : ReadOutcome → Except Err Unit
  | .ok => .ok ()
  | .notExist => .error ("open " ++ path ++ ": no such file or directory")
  | .failed e => .error e

/-- One iteration body of the search loop (lines 109-114): read the resolved
path; success returns it, a not-exist error falls through to the rest of the
loop, any other read error returns wrapped. -/
def parseConfigTry (fs : ConfigFS) (ap : String)
    (rest : List String × Except Err Unit) : List String × Except Err Unit :=
  match fs.read ap with
  | .ok => ([ap], .ok ())
  | .notExist => (ap :: rest.1, rest.2)
  | .failed e => ([ap], .error ("cannot read config file at " ++ ap ++ ": " ++ e))

/-- The search loop of `parseConfig` (lines 104-116): absolutize each path,
try to read it; success returns, a not-exist error moves on, any other read
error returns wrapped; an exhausted list is "config file not found".  Also
returns the list of absolute paths attempted, in order. -/
def parseConfigLoop (fs : ConfigFS) : List String → List String × Except Err Unit
  | [] => ([], .error "config file not found")
  | p :: rest =>
    match fs.abs p with
    | .error e => ([], .error e)
    | .ok ap => parseConfigTry fs ap (parseConfigLoop fs rest)

/-- `parseConfig` (lines 97-117): an explicit config path is read directly and
every error from it is returned with no search; otherwise the search paths are
tried in order.  Returns the paths attempted and the result. -/
def parseConfig (fs : ConfigFS) (configPath : String) :
    List String × Except Err Unit :=
  if configPath ≠ "" then ([configPath], readOutcomeErr configPath (fs.read configPath))
  else parseConfigLoop fs (configSearchPaths fs.home)

/-- A sample static section for concrete instantiations. -/
def sampleStaticSection : StaticConfig :=
  { primary := true, hostname := "node1", advertiseURL := "http://node1:20202" }

/-- A sample static-mode configuration used to instantiate theorems with
hypotheses at concrete inputs. -/
def sampleStaticConfig : Config :=
  { mountDir := "/litefs", dataDir := "/var/lib/litefs", exec := "myapp"
    candidate := true, debug := false, strictVerify := false
    retention := { duration := 60, monitorInterval := 300 }
    http := { addr := ":20202" }
    consul := none
    static := some sampleStaticSection }

/-- A sample environment in which every effectful call succeeds. -/
def sampleEnv : Env :=
  { httpListen := .ok (), httpPort := 20202, osHostname := .ok "host1"
    advertiseURLFn := none, consulOpen := .ok (), storeOpen := .ok ()
    fuseMount := .ok (), ctxDoneBeforeReady := false, ctxErr := "context canceled"
    execParse := .ok ["myapp"], execStart := .ok () }

/-- Sample consul-leaser built-in defaults. -/
def sampleDefaults : LeaserDefaults :=
  { key := "litefs/primary", ttl := 10, lockDelay := 1 }

lemma precedes_of_append {l1 l2 : List Event} {a b : Event}
    (ha : a ∈ l1) (hb : b ∈ l2) : Precedes (l1 ++ l2) a b :=
  ⟨l1, l2, rfl, ha, hb⟩

lemma precedes_of_eq {l l1 l2 : List Event} {a b : Event}
    (h : l = l1 ++ l2) (ha : a ∈ l1) (hb : b ∈ l2) : Precedes l a b :=
  ⟨l1, l2, h, ha, hb⟩

/-- The events `openStore` can emit: always the leaser assignment first, then
(on a successful open) the store-open step and possibly the one publication. -/
lemma openStore_shape (env : Env) (w : World) (st : Store) (l : Leaser) :
    ∃ t, (openStore env w st l).events = .leaserAssign :: t ∧
      (∀ e ∈ t, e = Event.storeOpenOk ∨ e = Event.expvarPublish "store") ∧
      (∀ st2, (openStore env w st l).result = .ok st2 → Event.storeOpenOk ∈ t) := by
  unfold openStore
  rcases h : env.storeOpen with e | u
  · exact ⟨[], by simp, by simp, by simp⟩
  · by_cases hd : w.expvarOnceDone
    · exact ⟨[.storeOpenOk], by simp [hd], by simp, by simp⟩
    · exact ⟨[.storeOpenOk, .expvarPublish "store"], by simp [hd], by simp, by simp⟩

/-- The events `instantiateLeaser` can emit. -/
lemma instantiateLeaser_events_sub (d : LeaserDefaults) (env : Env) (cfg : Config) :
    ∀ e ∈ (instantiateLeaser d env cfg).1,
      (∃ h a, e = Event.consulNew h a) ∨ e = Event.consulOpenOk ∨
        ∃ p h a, e = Event.staticNew p h a := by
  unfold instantiateLeaser initConsul
  rcases hc : cfg.consul with _ | cc
  · rcases hs : cfg.static with _ | sc <;> simp
  · rcases hh : initConsulHostname env cc with e | hn
    · simp [hh]
    · rcases ho : env.consulOpen with e | u <;> simp [hh, ho]

/-- On success, `initConsul` resolved the hostname, computed the advertise
URL, opened the leaser, and returned the configured consul variant. -/
lemma initConsul_ok_shape (d : LeaserDefaults) (env : Env) (cc : ConsulConfig)
    (evs : List Event) (l : Leaser)
    (h : initConsul d env cc = (evs, .ok l)) :
    ∃ hn, initConsulHostname env cc = .ok hn ∧
      evs = [.consulNew hn (initConsulAdvertiseURL env cc hn), .consulOpenOk] ∧
      l = .consul (initConsulLeaser d cc hn (initConsulAdvertiseURL env cc hn)) := by
  unfold initConsul at h
  rcases hh : initConsulHostname env cc with e | hn <;> rw [hh] at h
  · simp at h
  · rcases ho : env.consulOpen with e | u <;> rw [ho] at h
    · simp at h
    · simp at h
      exact ⟨hn, rfl, h.1.symm, h.2.symm⟩

/-- On success, `instantiateLeaser` emitted exactly the events of the one
variant the configuration selects, and returned that variant. -/
lemma instantiateLeaser_ok_shape (d : LeaserDefaults) (env : Env) (cfg : Config)
    (evs : List Event) (l : Leaser)
    (h : instantiateLeaser d env cfg = (evs, .ok l)) :
    (∀ cc, cfg.consul = some cc →
      ∃ hn, initConsulHostname env cc = .ok hn ∧
        evs = [.consulNew hn (initConsulAdvertiseURL env cc hn), .consulOpenOk] ∧
        l = .consul (initConsulLeaser d cc hn (initConsulAdvertiseURL env cc hn))) ∧
    (cfg.consul = none →
      ∃ sc, cfg.static = some sc ∧
        evs = [.staticNew sc.primary sc.hostname sc.advertiseURL] ∧
        l = .staticL sc.primary sc.hostname sc.advertiseURL) := by
  unfold instantiateLeaser at h
  split at h
  next cc hc =>
    refine ⟨fun cc' hcc' => ?_, fun hn => by rw [hc] at hn; cases hn⟩
    obtain rfl : cc = cc' := by rw [hc] at hcc'; exact Option.some.inj hcc'
    split at h
    next evs' e hi => simp at h
    next evs' l' hi =>
      simp at h
      obtain ⟨hn, hhn, hevs, hl⟩ := initConsul_ok_shape d env cc evs' l' hi
      exact ⟨hn, hhn, h.1 ▸ hevs, by rw [← h.2, hl]⟩
  next hc =>
    refine ⟨fun cc' hcc' => (by rw [hc] at hcc'; cases hcc'), fun _ => ?_⟩
    split at h
    next sc hs =>
      simp at h
      exact ⟨sc, hs, h.1.symm, h.2.symm⟩
    next hs => simp at h

/-- `execCmd` either emits nothing or starts exactly one subprocess, and the
latter only on success. -/
lemma execCmd_shape (env : Env) (cfg : Config) :
    (execCmd env cfg).1 = [] ∨
      ∃ args, (execCmd env cfg).1 = [.subStart args] ∧
        (execCmd env cfg).2 = .ok () := by
  unfold execCmd
  by_cases hx : cfg.exec = ""
  · simp [hx]
  · rcases hp : env.execParse with e | args
    · simp [hx, hp]
    · rcases hs : env.execStart with e | u <;> simp [hx, hp, hs]

/-- If the readiness stage ends in success, its trace is the prefix followed
by the wait, the readiness signal and the exec step's events, and the context
was not cancelled first. -/
lemma runFromReady_ok_shape (env : Env) (cfg : Config) (w : World)
    (pre : List Event) (hok : (runFromReady env cfg w pre).result = .ok ()) :
    ∃ evs3,
      (runFromReady env cfg w pre).events
        = pre ++ [.readyWait, .readyFired] ++ evs3 ∧
      (evs3 = [] ∨ ∃ args, evs3 = [.subStart args]) ∧
      env.ctxDoneBeforeReady = false := by
  unfold runFromReady at hok ⊢
  rcases hc : env.ctxDoneBeforeReady with _ | _
  · rcases h6 : execCmd env cfg with ⟨evs3, r3⟩
    rcases r3 with e | u6
    · simp [hc, h6] at hok
    · refine ⟨evs3, by simp [hc, h6], ?_, by simp [hc]⟩
      rcases execCmd_shape env cfg with h | ⟨args, ha, _⟩
      · rw [h6] at h; exact Or.inl h
      · rw [h6] at ha; exact Or.inr ⟨args, ha⟩
  · simp [hc] at hok

/-- If the open-store stage ends in success, the store open and the mount
succeeded and the trace extends the base with the open-store events, the
mount, the serve, and the readiness stage's tail. -/
lemma runFromOpen_ok_shape (env : Env) (cfg : Config) (base : List Event)
    (o : OpenOut) (hok : (runFromOpen env cfg base o).result = .ok ()) :
    ∃ st2 evs3, o.result = .ok st2 ∧
      (runFromOpen env cfg base o).events
        = base ++ o.events ++ [.fsMount, .httpServe]
            ++ [.readyWait, .readyFired] ++ evs3 ∧
      (evs3 = [] ∨ ∃ args, evs3 = [.subStart args]) ∧
      env.ctxDoneBeforeReady = false := by
  unfold runFromOpen at hok ⊢
  rcases ho : o.result with e | st2 <;> simp only [ho] at hok ⊢
  · simp at hok
  · rcases h4 : env.fuseMount with e | u4 <;> simp only [h4] at hok ⊢
    · simp at hok
    · obtain ⟨evs3, he, hshape, hctx⟩ := runFromReady_ok_shape env cfg o.world _ hok
      exact ⟨st2, evs3, rfl, by rw [he], hshape, hctx⟩

/-- Decomposition of a successful run's trace: store init and HTTP listen,
the selected leaser's events, the leaser assignment and store open (with the
possible expvar publication) — then mount, serve, the readiness wait, the
readiness signal, and finally the exec step's events. -/
lemma run_ok_shape (d : LeaserDefaults) (env : Env) (cfg : Config) (w : World)
    (hok : (Run d env cfg w).result = .ok ()) :
    ∃ evs1 t evs3 l,
      (Run d env cfg w).events
        = [.storeInit, .httpListenOk] ++ evs1 ++ (.leaserAssign :: t)
            ++ [.fsMount, .httpServe] ++ [.readyWait, .readyFired] ++ evs3 ∧
      instantiateLeaser d env cfg = (evs1, .ok l) ∧
      (∀ e ∈ t, e = Event.storeOpenOk ∨ e = Event.expvarPublish "store") ∧
      Event.storeOpenOk ∈ t ∧
      (evs3 = [] ∨ ∃ args, evs3 = [.subStart args]) ∧
      env.ctxDoneBeforeReady = false := by
  unfold Run at hok ⊢
  rcases h1 : env.httpListen with e | u <;> simp only [h1] at hok ⊢
  · simp at hok
  · rcases h2 : instantiateLeaser d env cfg with ⟨evs1, r1⟩
    rcases r1 with e | l <;> simp only [h2] at hok ⊢
    · simp at hok
    · obtain ⟨st2, evs3, ho, he, hshape, hctx⟩ :=
        runFromOpen_ok_shape env cfg _ _ hok
      obtain ⟨t, ht, htsub, htok⟩ := openStore_shape env w (initStore cfg) l
      refine ⟨evs1, t, evs3, l, ?_, rfl, htsub, htok st2 ho, hshape, hctx⟩
      rw [he, ht]

lemma precedes_append_left {l : List Event} {a b : Event} (pre : List Event)
    (h : Precedes l a b) : Precedes (pre ++ l) a b := by
  obtain ⟨l1, l2, rfl, ha, hb⟩ := h
  exact ⟨pre ++ l1, l2, by rw [List.append_assoc], List.mem_append_right pre ha, hb⟩

/-- No event of `instantiateLeaser` is a subprocess start, a readiness event
or an assignment; only leaser constructions and the consul open. -/
lemma instantiateLeaser_events_flags (d : LeaserDefaults) (env : Env)
    (cfg : Config) : ∀ e ∈ (instantiateLeaser d env cfg).1,
      (∀ args, e ≠ Event.subStart args) ∧ e ≠ Event.readyWait ∧
        e ≠ Event.readyFired := by
  intro e he
  rcases instantiateLeaser_events_sub d env cfg e he with ⟨h, a, rfl⟩ | rfl | ⟨p, h, a, rfl⟩
  · exact ⟨fun _ => by simp, by simp, by simp⟩
  · exact ⟨fun _ => by simp, by simp, by simp⟩
  · exact ⟨fun _ => by simp, by simp, by simp⟩

/-- The events of `execCmd` are subprocess starts only. -/
lemma execCmd_events_flags (env : Env) (cfg : Config) :
    ∀ e ∈ (execCmd env cfg).1, ∃ args, e = Event.subStart args := by
  rcases execCmd_shape env cfg with h | ⟨args, ha, _⟩ <;> intro e he
  · rw [h] at he; cases he
  · rw [ha] at he
    have : e = Event.subStart args := List.mem_singleton.mp he
    exact ⟨args, this⟩

/-- Every event of `openStore` is the assignment, the store open, or the
publication: none is a leaser construction, a subprocess start or the
readiness wait. -/
lemma openStore_events_flags (env : Env) (w : World) (st : Store) (l : Leaser) :
    ∀ e ∈ (openStore env w st l).events,
      e.isLeaserNew = false ∧ (∀ args, e ≠ Event.subStart args) ∧
        e ≠ Event.readyWait := by
  obtain ⟨t, ht, hsub, _⟩ := openStore_shape env w st l
  intro e he
  rw [ht] at he
  rcases List.mem_cons.mp he with rfl | he
  · exact ⟨rfl, fun _ => by simp, by simp⟩
  · rcases hsub e he with rfl | rfl
    · exact ⟨rfl, fun _ => by simp, by simp⟩
    · exact ⟨rfl, fun _ => by simp, by simp⟩

/-- Properties of the trace segment after the readiness signal fires. -/
lemma readyTail_props (evs3 : List Event)
    (hflags : ∀ e ∈ evs3, ∃ args, e = Event.subStart args) :
    (∀ e ∈ [Event.readyWait, Event.readyFired] ++ evs3, e.isLeaserNew = false) ∧
    (∀ args, Event.subStart args ∈ [Event.readyWait, Event.readyFired] ++ evs3 →
      Precedes ([Event.readyWait, Event.readyFired] ++ evs3)
        .readyFired (.subStart args)) := by
  constructor
  · intro e he
    rcases List.mem_append.mp he with he | he
    · rcases (by simpa using he : e = Event.readyWait ∨ e = Event.readyFired)
        with rfl | rfl <;> rfl
    · obtain ⟨args, rfl⟩ := hflags e he; rfl
  · intro args hmem
    refine ⟨[.readyWait, .readyFired], evs3, rfl, by simp, ?_⟩
    rcases List.mem_append.mp hmem with h | h
    · simp at h
    · exact h

/-- Every trace of the readiness stage extends the prefix with a middle part
that constructs no leaser, starts a subprocess only after the readiness
signal, and — under early context cancellation — starts no subprocess and
yields the context's error. -/
lemma runFromReady_events_cases (env : Env) (cfg : Config) (w : World)
    (pre : List Event) :
    ∃ mid, (runFromReady env cfg w pre).events = pre ++ mid ∧
      (∀ e ∈ mid, e.isLeaserNew = false) ∧
      (∀ args, Event.subStart args ∈ mid →
        Precedes mid .readyFired (.subStart args)) ∧
      (env.ctxDoneBeforeReady = true →
        (∀ args, Event.subStart args ∉ mid) ∧
        (runFromReady env cfg w pre).result = .error env.ctxErr) := by
  unfold runFromReady
  rcases hc : env.ctxDoneBeforeReady with _ | _
  · rcases h6 : execCmd env cfg with ⟨evs3, r3⟩
    have hflags : ∀ e ∈ evs3, ∃ args, e = Event.subStart args := fun e he =>
      execCmd_events_flags env cfg e (by rw [h6]; exact he)
    obtain ⟨hf, hp⟩ := readyTail_props evs3 hflags
    rcases r3 with e | u6
    · exact ⟨[.readyWait, .readyFired] ++ evs3, by simp [h6], hf, hp, by simp⟩
    · exact ⟨[.readyWait, .readyFired] ++ evs3, by simp [h6], hf, hp, by simp⟩
  · refine ⟨[.readyWait, .ctxCancel], by simp, ?_, ?_, ?_⟩
    · intro e he
      rcases (by simpa using he : e = Event.readyWait ∨ e = Event.ctxCancel)
        with rfl | rfl <;> rfl
    · intro args h; simp at h
    · exact fun _ => ⟨fun args h => by simp at h, by simp⟩

/-- Every trace of the open-store stage extends the base with a tail that
constructs no leaser, starts a subprocess only after the readiness signal,
and — under early context cancellation — starts no subprocess and, once the
wait was reached, yields the context's error. -/
lemma runFromOpen_events_cases (env : Env) (cfg : Config) (base : List Event)
    (o : OpenOut)
    (hflags : ∀ e ∈ o.events, e.isLeaserNew = false ∧
      (∀ args, e ≠ Event.subStart args) ∧ e ≠ Event.readyWait) :
    ∃ tail, (runFromOpen env cfg base o).events = base ++ tail ∧
      (∀ e ∈ tail, e.isLeaserNew = false) ∧
      (∀ args, Event.subStart args ∈ tail →
        Precedes tail .readyFired (.subStart args)) ∧
      (env.ctxDoneBeforeReady = true → ∀ args, Event.subStart args ∉ tail) ∧
      (env.ctxDoneBeforeReady = true → Event.readyWait ∈ tail →
        (runFromOpen env cfg base o).result = .error env.ctxErr) := by
  unfold runFromOpen
  rcases hr : o.result with e | st2
  · refine ⟨o.events, by simp, fun e he => (hflags e he).1, ?_, ?_, ?_⟩
    · intro args h; exact ((hflags _ h).2.1 args rfl).elim
    · intro _ args h; exact (hflags _ h).2.1 args rfl
    · intro _ hw; exact ((hflags _ hw).2.2 rfl).elim
  · rcases h4 : env.fuseMount with e | u4
    · refine ⟨o.events, by simp, fun e he => (hflags e he).1, ?_, ?_, ?_⟩
      · intro args h; exact ((hflags _ h).2.1 args rfl).elim
      · intro _ args h; exact (hflags _ h).2.1 args rfl
      · intro _ hw; exact ((hflags _ hw).2.2 rfl).elim
    · obtain ⟨mid, hm, hmf, hmp, hmc⟩ :=
        runFromReady_events_cases env cfg o.world
          (base ++ o.events ++ [.fsMount, .httpServe])
      refine ⟨o.events ++ [.fsMount, .httpServe] ++ mid, ?_, ?_, ?_, ?_, ?_⟩
      · show (runFromReady env cfg o.world
            (base ++ o.events ++ [.fsMount, .httpServe])).events = _
        rw [hm]; simp
      · intro e he
        rcases List.mem_append.mp he with he | he
        · rcases List.mem_append.mp he with he | he
          · exact (hflags e he).1
          · rcases (by simpa using he : e = Event.fsMount ∨ e = Event.httpServe)
              with rfl | rfl <;> rfl
        · exact hmf e he
      · intro args hmem
        have hin : Event.subStart args ∈ mid := by
          rcases List.mem_append.mp hmem with h | h
          · rcases List.mem_append.mp h with h | h
            · exact ((hflags _ h).2.1 args rfl).elim
            · simp at h
          · exact h
        exact precedes_append_left (o.events ++ [.fsMount, .httpServe]) (hmp args hin)
      · intro hct args hmem
        rcases List.mem_append.mp hmem with h | h
        · rcases List.mem_append.mp h with h | h
          · exact (hflags _ h).2.1 args rfl
          · simp at h
        · exact (hmc hct).1 args h
      · intro hct _
        show (runFromReady env cfg o.world
            (base ++ o.events ++ [.fsMount, .httpServe])).result = _
        exact (hmc hct).2

lemma filter_isLeaserNew_eq_nil {l : List Event}
    (h : ∀ e ∈ l, e.isLeaserNew = false) :
    l.filter Event.isLeaserNew = [] :=
  List.filter_eq_nil_iff.mpr (fun a ha => by simp [h a ha])

/-- The first component of `instantiateLeaser` in the consul case is the
event list of `initConsul`. -/
lemma instantiateLeaser_fst_consul (d : LeaserDefaults) (env : Env)
    (cfg : Config) (cc : ConsulConfig) (hc : cfg.consul = some cc) :
    (instantiateLeaser d env cfg).1 = (initConsul d env cc).1 := by
  unfold instantiateLeaser
  rw [hc]
  rcases hi : initConsul d env cc with ⟨evs', r'⟩
  rcases r' with e | l' <;> simp [hi]

/-- The first component of `instantiateLeaser` in the static case. -/
lemma instantiateLeaser_fst_static (d : LeaserDefaults) (env : Env)
    (cfg : Config) (sc : StaticConfig) (hc : cfg.consul = none)
    (hs : cfg.static = some sc) :
    (instantiateLeaser d env cfg).1
      = [.staticNew sc.primary sc.hostname sc.advertiseURL] := by
  unfold instantiateLeaser
  rw [hc, hs]

/-- `initConsul` constructs at most one leaser. -/
lemma initConsul_filter_le_one (d : LeaserDefaults) (env : Env)
    (cc : ConsulConfig) :
    (((initConsul d env cc).1).filter Event.isLeaserNew).length ≤ 1 := by
  unfold initConsul
  rcases hh : initConsulHostname env cc with e | hn
  · simp
  · rcases ho : env.consulOpen with e | u <;>
      simp [List.filter, Event.isLeaserNew]

/-- The leaser-instantiation step constructs at most one leaser. -/
lemma instantiateLeaser_filter_le_one (d : LeaserDefaults) (env : Env)
    (cfg : Config) :
    (((instantiateLeaser d env cfg).1).filter Event.isLeaserNew).length ≤ 1 := by
  rcases hc : cfg.consul with _ | cc
  · rcases hs : cfg.static with _ | sc
    · have : (instantiateLeaser d env cfg).1 = [] := by
        unfold instantiateLeaser; rw [hc, hs]
      rw [this]; simp
    · rw [instantiateLeaser_fst_static d env cfg sc hc hs]
      simp [List.filter, Event.isLeaserNew]
  · rw [instantiateLeaser_fst_consul d env cfg cc hc]
    exact initConsul_filter_le_one d env cc

/-- The events of `Close`: one per initialized component, in the fixed order
HTTP server, file system, store. -/
lemma Close_events (e : CloseEnv) :
    (Close e).1 = (if e.httpServer.isSome then [Event.httpClose] else [])
      ++ (if e.fileSystem.isSome then [Event.fsUnmount] else [])
      ++ (if e.store.isSome then [Event.storeClose] else []) := by
  unfold Close
  rcases e.httpServer with _ | r1 <;> rcases e.fileSystem with _ | r2 <;>
    rcases e.store with _ | r3 <;> simp

/-- The error `Close` returns: the first non-nil close error in order, with
uninitialized components contributing none. -/
lemma Close_result (e : CloseEnv) :
    (Close e).2 = ((e.httpServer.getD none).orElse
      fun _ => (e.fileSystem.getD none)).orElse fun _ => (e.store.getD none) := by
  unfold Close
  rcases e.httpServer with _ | r1 <;> rcases e.fileSystem with _ | r2 <;>
    rcases e.store with _ | r3 <;> rfl

/-- One `openStore` call's effect on the process-global state. -/
lemma openStoreWorld_eq (ok : Except Err Unit) (w : World) :
    openStoreWorld ok w
      = match ok with
        | .error _ => w
        | .ok _ =>
          if w.expvarOnceDone then w
          else { expvarOnceDone := true, published := w.published ++ ["store"] } := by
  unfold openStoreWorld openStore
  rcases ok with e | u
  · rfl
  · by_cases hd : w.expvarOnceDone <;> simp [hd]

lemma openStoreWorld_of_done (ok : Except Err Unit) (w : World)
    (h : w.expvarOnceDone = true) : openStoreWorld ok w = w := by
  rw [openStoreWorld_eq]
  rcases ok with e | u
  · rfl
  · simp [h]

/-- Once the package-global once has fired, no later `openStore` call changes
the process-global state. -/
lemma runOpenStores_done (outcomes : List (Except Err Unit)) (w : World)
    (h : w.expvarOnceDone = true) : runOpenStores outcomes w = w := by
  induction outcomes generalizing w with
  | nil => rfl
  | cons ok rest ih =>
    show runOpenStores rest (openStoreWorld ok w) = w
    rw [openStoreWorld_of_done ok w h]
    exact ih w h

/-- Starting from an unfired once, a sequence of `openStore` calls publishes
the store expvar exactly once when some call's open succeeds, and never
otherwise. -/
lemma runOpenStores_published (outcomes : List (Except Err Unit)) (w : World)
    (h : w.expvarOnceDone = false) :
    (runOpenStores outcomes w).published
      = w.published ++ (if outcomes.any isOkE then ["store"] else []) := by
  induction outcomes generalizing w with
  | nil => simp [runOpenStores]
  | cons ok rest ih =>
    show (runOpenStores rest (openStoreWorld ok w)).published = _
    rcases ok with e | u
    · rw [show openStoreWorld (.error e) w = w from by rw [openStoreWorld_eq]]
      rw [ih w h]
      simp [isOkE]
    · have hw : openStoreWorld (.ok u) w
          = { expvarOnceDone := true, published := w.published ++ ["store"] } := by
        rw [openStoreWorld_eq]; simp [h]
      rw [hw, runOpenStores_done rest _ rfl]
      simp [isOkE]

lemma parseConfigTry_of_ok (fs : ConfigFS) (ap : String)
    (rest : List String × Except Err Unit) (hr : fs.read ap = .ok) :
    parseConfigTry fs ap rest = ([ap], .ok ()) := by
  unfold parseConfigTry; rw [hr]

lemma parseConfigTry_of_notExist (fs : ConfigFS) (ap : String)
    (rest : List String × Except Err Unit) (hr : fs.read ap = .notExist) :
    parseConfigTry fs ap rest = (ap :: rest.1, rest.2) := by
  unfold parseConfigTry; rw [hr]

lemma parseConfigTry_of_failed (fs : ConfigFS) (ap : String)
    (rest : List String × Except Err Unit) (e : Err)
    (hr : fs.read ap = .failed e) :
    parseConfigTry fs ap rest
      = ([ap], .error ("cannot read config file at " ++ ap ++ ": " ++ e)) := by
  unfold parseConfigTry; rw [hr]

lemma parseConfigLoop_cons_ok (fs : ConfigFS) (p : String) (rest : List String)
    (ap : String) (ha : fs.abs p = .ok ap) :
    parseConfigLoop fs (p :: rest)
      = parseConfigTry fs ap (parseConfigLoop fs rest) := by
  simp only [parseConfigLoop]
  rw [ha]

lemma parseConfigLoop_cons_absErr (fs : ConfigFS) (p : String)
    (rest : List String) (e : Err) (ha : fs.abs p = .error e) :
    parseConfigLoop fs (p :: rest) = ([], .error e) := by
  simp only [parseConfigLoop]
  rw [ha]

/-- All search paths resolving but missing exhausts the loop with the
config-file-not-found error, after trying every path. -/
lemma parseConfigLoop_all_notExist (fs : ConfigFS) (l : List String)
    (h : ∀ p ∈ l, ∃ ap, fs.abs p = .ok ap ∧ fs.read ap = .notExist) :
    (parseConfigLoop fs l).2 = .error "config file not found" ∧
    (parseConfigLoop fs l).1.length = l.length := by
  induction l with
  | nil => exact ⟨rfl, rfl⟩
  | cons p rest ih =>
    obtain ⟨ap, ha, hr⟩ := h p (List.mem_cons_self p rest)
    have hrest := ih (fun q hq => h q (List.mem_cons_of_mem p hq))
    rw [parseConfigLoop_cons_ok fs p rest ap ha,
      parseConfigTry_of_notExist fs ap _ hr]
    exact ⟨hrest.1, by simpa using hrest.2⟩

/-- A prefix of resolving-but-missing paths is skipped: the loop continues on
the rest, recording one attempted path per skipped entry. -/
lemma parseConfigLoop_skip_prefix (fs : ConfigFS) (l1 : List String)
    (h : ∀ p ∈ l1, ∃ ap, fs.abs p = .ok ap ∧ fs.read ap = .notExist)
    (l2 : List String) :
    (parseConfigLoop fs (l1 ++ l2)).2 = (parseConfigLoop fs l2).2 ∧
    ∃ t, (parseConfigLoop fs (l1 ++ l2)).1 = t ++ (parseConfigLoop fs l2).1 ∧
      t.length = l1.length := by
  induction l1 with
  | nil => exact ⟨rfl, [], rfl, rfl⟩
  | cons p rest ih =>
    obtain ⟨ap, ha, hr⟩ := h p (List.mem_cons_self p rest)
    obtain ⟨hres, t, ht, hlen⟩ := ih (fun q hq => h q (List.mem_cons_of_mem p hq))
    rw [List.cons_append,
      parseConfigLoop_cons_ok fs p (rest ++ l2) ap ha,
      parseConfigTry_of_notExist fs ap _ hr]
    refine ⟨hres, ap :: t, ?_, by simpa using hlen⟩
    show ap :: (parseConfigLoop fs (rest ++ l2)).1
        = (ap :: t) ++ (parseConfigLoop fs l2).1
    rw [ht, List.cons_append]

/-- Decomposition of every run's trace: either HTTP listen failed and only the
store was initialized, or the trace is the two fixed startup events, then the
leaser-instantiation events, then a tail that constructs no leaser, starts a
subprocess only after the readiness signal, and — when the context is
cancelled before readiness — contains no subprocess start at all and makes
Run return the context's error once the wait was reached. -/
lemma run_events_cases (d : LeaserDefaults) (env : Env) (cfg : Config)
    (w : World) :
    (Run d env cfg w).events = [.storeInit] ∨
    ∃ tail,
      (Run d env cfg w).events
        = [.storeInit, .httpListenOk] ++ (instantiateLeaser d env cfg).1 ++ tail ∧
      (∀ e ∈ tail, e.isLeaserNew = false) ∧
      (∀ args, Event.subStart args ∈ tail →
        Precedes tail .readyFired (.subStart args)) ∧
      (env.ctxDoneBeforeReady = true → ∀ args, Event.subStart args ∉ tail) ∧
      (env.ctxDoneBeforeReady = true → Event.readyWait ∈ tail →
        (Run d env cfg w).result = .error env.ctxErr) := by
  unfold Run
  rcases h1 : env.httpListen with e | u
  · exact Or.inl rfl
  · right
    rcases h2 : instantiateLeaser d env cfg with ⟨evs1, r1⟩
    rcases r1 with e | l
    · refine ⟨[], by simp, by simp, by simp, by simp, by simp⟩
    · obtain ⟨tail, he, hf, hp, hns, hres⟩ :=
        runFromOpen_events_cases env cfg ([.storeInit, .httpListenOk] ++ evs1)
          (openStore env w (initStore cfg) l)
          (openStore_events_flags env w (initStore cfg) l)
      refine ⟨tail, ?_, hf, hp, hns, ?_⟩
      · show (runFromOpen env cfg ([.storeInit, .httpListenOk] ++ evs1)
            (openStore env w (initStore cfg) l)).events = _
        rw [he]
      · intro hct hw
        show (runFromOpen env cfg ([.storeInit, .httpListenOk] ++ evs1)
            (openStore env w (initStore cfg) l)).result = _
        exact hres hct hw

end LiteFS

namespace LiteFS

/-- C1 -- Validate accepts exactly the well-formed configurations: it returns
an error precisely when the mount directory is empty, the data directory is
empty, the two directories coincide, both lease modes are set, or neither
lease mode is set. -/
theorem validate_errs_iff_malformed (cfg : Config) :
    (Validate cfg).isSome ↔ Malformed cfg := by
  unfold Validate Malformed
  rcases cfg with ⟨md, dd, e, c, d, sv, r, h, co, st⟩
  by_cases h1 : md = "" <;> by_cases h2 : dd = "" <;> by_cases h3 : md = dd <;>
    cases co <;> cases st <;> simp_all

/-- C2 -- For a validated configuration, every run constructs at most one
leaser, and a successful run constructs exactly one: the consul variant
(constructed and opened) exactly when the consul section is present, and
otherwise the static variant built from the static section's primary flag,
hostname and advertise URL.  Which variant is chosen is a function of the
configuration alone. -/
theorem run_instantiates_one_leaser (d : LeaserDefaults) (env : Env)
    (cfg : Config) (w : World) (hv : Validate cfg = none) :
    ((Run d env cfg w).events.filter Event.isLeaserNew).length ≤ 1 ∧
    ((Run d env cfg w).result = .ok () →
      (∀ cc, cfg.consul = some cc →
        ∃ hn, initConsulHostname env cc = .ok hn ∧
          (Run d env cfg w).events.filter Event.isLeaserNew
            = [.consulNew hn (initConsulAdvertiseURL env cc hn)] ∧
          Event.consulOpenOk ∈ (Run d env cfg w).events) ∧
      (cfg.consul = none →
        ∃ sc, cfg.static = some sc ∧
          (Run d env cfg w).events.filter Event.isLeaserNew
            = [.staticNew sc.primary sc.hostname sc.advertiseURL])) := by
  constructor
  · rcases run_events_cases d env cfg w with h | ⟨tail, he, hf, -, -, -⟩
    · rw [h]; simp [List.filter, Event.isLeaserNew]
    · rw [he, List.filter_append, List.filter_append,
        filter_isLeaserNew_eq_nil hf]
      have hbase : ([Event.storeInit, Event.httpListenOk].filter
          Event.isLeaserNew) = [] := rfl
      rw [hbase]
      simp only [List.nil_append, List.append_nil]
      exact instantiateLeaser_filter_le_one d env cfg
  · intro hok
    obtain ⟨evs1, t, evs3, l, hev, hil, htsub, -, hevs3, -⟩ :=
      run_ok_shape d env cfg w hok
    obtain ⟨hcons, hstat⟩ := instantiateLeaser_ok_shape d env cfg evs1 l hil
    have htnil : (Event.leaserAssign :: t).filter Event.isLeaserNew = [] := by
      refine filter_isLeaserNew_eq_nil ?_
      intro e hein
      rcases List.mem_cons.mp hein with rfl | hein
      · rfl
      · rcases htsub e hein with rfl | rfl <;> rfl
    have h3nil : evs3.filter Event.isLeaserNew = [] := by
      rcases hevs3 with rfl | ⟨args, rfl⟩ <;> rfl
    have hfil : (Run d env cfg w).events.filter Event.isLeaserNew
        = evs1.filter Event.isLeaserNew := by
      rw [hev]
      repeat rw [List.filter_append]
      rw [htnil, h3nil]
      simp [List.filter, Event.isLeaserNew]
    constructor
    · intro cc hcc
      obtain ⟨hn, hhn, hevs1, -⟩ := hcons cc hcc
      refine ⟨hn, hhn, ?_, ?_⟩
      · rw [hfil, hevs1]; rfl
      · rw [hev, hevs1]; simp
    · intro hnone
      obtain ⟨sc, hsc, hevs1, -⟩ := hstat hnone
      refine ⟨sc, hsc, ?_⟩
      rw [hfil, hevs1]; rfl

/-- C2 witness: a concrete validated static-mode run constructs at most one
leaser, and this successful run constructs exactly the static variant from
the configured flag, hostname and advertise URL. -/
theorem run_instantiates_one_leaser_witness :
    ((Run sampleDefaults sampleEnv sampleStaticConfig World.init).events.filter
        Event.isLeaserNew).length ≤ 1 ∧
    (Run sampleDefaults sampleEnv sampleStaticConfig World.init).events.filter
        Event.isLeaserNew
      = [.staticNew true "node1" "http://node1:20202"] := by
  have h := run_instantiates_one_leaser sampleDefaults sampleEnv
    sampleStaticConfig World.init (by decide)
  refine ⟨h.1, ?_⟩
  obtain ⟨sc, hsc, hfil⟩ := (h.2 rfl).2 rfl
  have h2 : some sampleStaticSection = some sc := hsc
  have h3 := Option.some.inj h2
  rw [← h3] at hfil
  exact hfil

/-- C3 -- A subprocess is only ever started after the readiness signal has
fired, and when the context is cancelled before readiness, no subprocess is
started and — provided the run reached the readiness wait — Run returns the
context's error. -/
theorem run_exec_after_ready (d : LeaserDefaults) (env : Env) (cfg : Config)
    (w : World) :
    (∀ args, Event.subStart args ∈ (Run d env cfg w).events →
      Precedes (Run d env cfg w).events .readyFired (.subStart args)) ∧
    (env.ctxDoneBeforeReady = true →
      (∀ args, Event.subStart args ∉ (Run d env cfg w).events) ∧
      (Event.readyWait ∈ (Run d env cfg w).events →
        (Run d env cfg w).result = .error env.ctxErr)) := by
  rcases run_events_cases d env cfg w with h | ⟨tail, he, -, hp, hns, hres⟩
  · constructor
    · intro args hm; rw [h] at hm; simp at hm
    · intro _
      refine ⟨fun args hm => ?_, fun hm => ?_⟩
      · rw [h] at hm; simp at hm
      · rw [h] at hm; simp at hm
  · have hbase1 : ∀ args, Event.subStart args ∉
        ([Event.storeInit, Event.httpListenOk] : List Event) := by
      intro args hm; simp at hm
    have hbase2 : Event.readyWait ∉
        ([Event.storeInit, Event.httpListenOk] : List Event) := by simp
    constructor
    · intro args hm
      rw [he] at hm
      have hmem : Event.subStart args ∈ tail := by
        rcases List.mem_append.mp hm with hm | hm
        · rcases List.mem_append.mp hm with hm | hm
          · exact (hbase1 args hm).elim
          · exact ((instantiateLeaser_events_flags d env cfg _ hm).1 args rfl).elim
        · exact hm
      rw [he]
      exact precedes_append_left _ (hp args hmem)
    · intro hct
      refine ⟨fun args hm => ?_, fun hm => ?_⟩
      · rw [he] at hm
        rcases List.mem_append.mp hm with hm | hm
        · rcases List.mem_append.mp hm with hm | hm
          · exact hbase1 args hm
          · exact (instantiateLeaser_events_flags d env cfg _ hm).1 args rfl
        · exact hns hct args hm
      · rw [he] at hm
        have hmem : Event.readyWait ∈ tail := by
          rcases List.mem_append.mp hm with hm | hm
          · rcases List.mem_append.mp hm with hm | hm
            · exact (hbase2 hm).elim
            · exact ((instantiateLeaser_events_flags d env cfg _ hm).2.1 rfl).elim
          · exact hm
        exact hres hct hmem

/-- C6 -- In every successful run, a leaser was constructed before being
assigned to the store, the assignment happened before the store was opened,
and the store was opened before the file system was mounted, before the HTTP
server started serving, and before the readiness wait. -/
theorem run_startup_order (d : LeaserDefaults) (env : Env) (cfg : Config)
    (w : World) (hok : (Run d env cfg w).result = .ok ()) :
    (∃ e, e.isLeaserNew = true ∧
      Precedes (Run d env cfg w).events e .leaserAssign) ∧
    Precedes (Run d env cfg w).events .leaserAssign .storeOpenOk ∧
    Precedes (Run d env cfg w).events .storeOpenOk .fsMount ∧
    Precedes (Run d env cfg w).events .storeOpenOk .httpServe ∧
    Precedes (Run d env cfg w).events .storeOpenOk .readyWait := by
  obtain ⟨evs1, t, evs3, l, hev, hil, -, htmem, -, -⟩ :=
    run_ok_shape d env cfg w hok
  obtain ⟨hcons, hstat⟩ := instantiateLeaser_ok_shape d env cfg evs1 l hil
  have hnew : ∃ e, e.isLeaserNew = true ∧ e ∈ evs1 := by
    rcases hc : cfg.consul with _ | cc
    · obtain ⟨sc, -, hevs1, -⟩ := hstat hc
      exact ⟨.staticNew sc.primary sc.hostname sc.advertiseURL, rfl,
        by rw [hevs1]; simp⟩
    · obtain ⟨hn, -, hevs1, -⟩ := hcons cc hc
      exact ⟨.consulNew hn (initConsulAdvertiseURL env cc hn), rfl,
        by rw [hevs1]; simp⟩
  refine ⟨?_, ?_, ?_, ?_, ?_⟩
  · obtain ⟨e, hlnew, hein⟩ := hnew
    refine ⟨e, hlnew, [.storeInit, .httpListenOk] ++ evs1,
      (.leaserAssign :: t) ++ [.fsMount, .httpServe]
        ++ [.readyWait, .readyFired] ++ evs3, ?_, ?_, ?_⟩
    · rw [hev]; simp
    · exact List.mem_append_right _ hein
    · simp
  · refine ⟨[.storeInit, .httpListenOk] ++ evs1 ++ [.leaserAssign],
      t ++ [.fsMount, .httpServe] ++ [.readyWait, .readyFired] ++ evs3,
      ?_, by simp, ?_⟩
    · rw [hev]; simp
    · exact List.mem_append_left _ (List.mem_append_left _
        (List.mem_append_left _ htmem))
  · refine ⟨[.storeInit, .httpListenOk] ++ evs1 ++ (.leaserAssign :: t),
      [.fsMount, .httpServe] ++ [.readyWait, .readyFired] ++ evs3,
      ?_, ?_, by simp⟩
    · rw [hev]; simp
    · exact List.mem_append_right _ (List.mem_cons_of_mem _ htmem)
  · refine ⟨[.storeInit, .httpListenOk] ++ evs1 ++ (.leaserAssign :: t),
      [.fsMount, .httpServe] ++ [.readyWait, .readyFired] ++ evs3,
      ?_, ?_, by simp⟩
    · rw [hev]; simp
    · exact List.mem_append_right _ (List.mem_cons_of_mem _ htmem)
  · refine ⟨[.storeInit, .httpListenOk] ++ evs1 ++ (.leaserAssign :: t),
      [.fsMount, .httpServe] ++ [.readyWait, .readyFired] ++ evs3,
      ?_, ?_, by simp⟩
    · rw [hev]; simp
    · exact List.mem_append_right _ (List.mem_cons_of_mem _ htmem)

/-- C6 witness: in the concrete successful static-mode run, the leaser
assignment precedes the store open, which precedes the mount, the serve and
the readiness wait. -/
theorem run_startup_order_witness :
    Precedes (Run sampleDefaults sampleEnv sampleStaticConfig
        World.init).events .leaserAssign .storeOpenOk ∧
    Precedes (Run sampleDefaults sampleEnv sampleStaticConfig
        World.init).events .storeOpenOk .fsMount :=
  ⟨(run_startup_order sampleDefaults sampleEnv sampleStaticConfig
      World.init rfl).2.1,
   (run_startup_order sampleDefaults sampleEnv sampleStaticConfig
      World.init rfl).2.2.1⟩

/-- C4 -- The mount command's own teardown (`Close`) never itself kills the
exec subprocess, and in the shutdown sequence — whose top-level ordering is
modelled from the spec, the subprocess's termination being sequenced after
the store's shutdown — the store close strictly precedes the subprocess
kill whenever the store was initialized and a subprocess is running. -/
theorem shutdown_store_before_subkill (e : CloseEnv) (b : Bool) :
    Event.subKill ∉ (Close e).1 ∧
    (e.store.isSome → b = true →
      Precedes (shutdownSeq e b) .storeClose .subKill) := by
  constructor
  · intro hm
    rw [Close_events] at hm
    rcases e.httpServer.isSome with _ | _ <;>
      rcases e.fileSystem.isSome with _ | _ <;>
      rcases e.store.isSome with _ | _ <;> simp_all
  · intro hs hb
    subst hb
    refine ⟨(Close e).1, [.subKill], ?_, ?_, by simp⟩
    · unfold shutdownSeq; rfl
    · rw [Close_events]
      refine List.mem_append_right _ ?_
      rw [if_pos hs]
      simp

/-- C4 witness: with all three components initialized and a running
subprocess, the store close precedes the subprocess kill. -/
theorem shutdown_store_before_subkill_witness :
    Precedes (shutdownSeq sampleCloseEnv true) .storeClose .subKill :=
  (shutdown_store_before_subkill sampleCloseEnv true).2 rfl rfl

/-- C5 (amended) -- Across every whole-process sequence of `openStore` calls
from a fresh process, the store expvar is published exactly once as soon as
some call's store open succeeds, and never when none does; in particular it
is published at most once per process, under the process-global once. -/
theorem expvar_published_once (outcomes : List (Except Err Unit)) :
    (runOpenStores outcomes World.init).published
      = (if outcomes.any isOkE then ["store"] else []) ∧
    (runOpenStores outcomes World.init).published.length ≤ 1 := by
  have h := runOpenStores_published outcomes World.init rfl
  have h0 : (World.init).published = [] := rfl
  rw [h0, List.nil_append] at h
  refine ⟨h, ?_⟩
  rw [h]
  by_cases hc : outcomes.any isOkE <;> simp [hc]

/-- C5 counterexample -- The one-time registration is not guarded per
caller-owned registry: two mount commands each running one successful
`openStore` in the same process publish once in total (the second command's
call is suppressed by the package-global once it never set), whereas two
caller-owned registries as the spec's design note prescribes would register
once each; and a sequence whose only open fails publishes zero times,
refuting "the publication happens exactly once for every sequence". -/
theorem expvar_guard_not_caller_owned :
    (runOpenStores [Except.ok (), Except.ok ()] World.init).published.length
      = 1 ∧
    ((callerOwnedPublish (Except.ok ()) CallerRegistry.init).published.length
      + (callerOwnedPublish (Except.ok ())
          CallerRegistry.init).published.length) = 2 ∧
    (1 : Nat) ≠ 2 ∧
    (runOpenStores [Except.error "disk failure"]
        World.init).published.length = 0 :=
  ⟨rfl, rfl, by decide, rfl⟩

/-- C7 -- The startup knobs are forwarded: candidate eligibility, retention
horizon and sweep interval are set on the store at creation, and the consul
leaser's key, TTL and lock delay are overridden exactly when the key is
non-empty and the durations strictly positive, the built-in defaults being
kept otherwise. -/
theorem startup_knobs_forwarded (cfg : Config) (d : LeaserDefaults)
    (cc : ConsulConfig) (hostname adv : String) :
    (initStore cfg).candidate = cfg.candidate ∧
    (initStore cfg).retentionDuration = cfg.retention.duration ∧
    (initStore cfg).retentionMonitorInterval = cfg.retention.monitorInterval ∧
    (initConsulLeaser d cc hostname adv).key
      = (if cc.key ≠ "" then cc.key else d.key) ∧
    (initConsulLeaser d cc hostname adv).ttl
      = (if cc.ttl > 0 then cc.ttl else d.ttl) ∧
    (initConsulLeaser d cc hostname adv).lockDelay
      = (if cc.lockDelay > 0 then cc.lockDelay else d.lockDelay) := by
  refine ⟨rfl, rfl, rfl, ?_, ?_, ?_⟩ <;> unfold initConsulLeaser <;>
    by_cases h1 : cc.key = "" <;> by_cases h2 : cc.ttl > 0 <;>
    by_cases h3 : cc.lockDelay > 0 <;> simp [h1, h2, h3]

/-- C8 -- In consul mode the hostname defaults to the operating-system
hostname exactly when the configured hostname is empty (and `initConsul`
fails when that lookup fails); with no injection function the advertise URL
defaults to the hostname and HTTP port exactly when the configured URL is
empty and the hostname non-empty; a set injection function replaces the
configured advertise URL unconditionally. -/
theorem consul_hostname_advertise_defaults (env : Env) (cc : ConsulConfig)
    (f : String) (d : LeaserDefaults) :
    (cc.hostname ≠ "" → initConsulHostname env cc = .ok cc.hostname) ∧
    (cc.hostname = "" → initConsulHostname env cc = env.osHostname) ∧
    (∀ e, cc.hostname = "" → env.osHostname = .error e →
      initConsul d env cc = ([], .error e)) ∧
    (∀ hostname, env.advertiseURLFn = none → cc.advertiseURL = "" →
      hostname ≠ "" → initConsulAdvertiseURL env cc hostname
        = "http://" ++ hostname ++ ":" ++ toString env.httpPort) ∧
    (∀ hostname, env.advertiseURLFn = none → cc.advertiseURL ≠ "" →
      initConsulAdvertiseURL env cc hostname = cc.advertiseURL) ∧
    (∀ hostname, env.advertiseURLFn = some f → f ≠ "" →
      initConsulAdvertiseURL env cc hostname = f) ∧
    (∀ hostname cc2, env.advertiseURLFn = some f →
      initConsulAdvertiseURL env cc hostname
        = initConsulAdvertiseURL env cc2 hostname) := by
  refine ⟨?_, ?_, ?_, ?_, ?_, ?_, ?_⟩
  · intro h; unfold initConsulHostname; rw [if_neg h]
  · intro h; unfold initConsulHostname; rw [if_pos h]
  · intro e h1 h2
    unfold initConsul initConsulHostname
    rw [if_pos h1, h2]
  · intro hostname h1 h2 h3
    unfold initConsulAdvertiseURL
    rw [h1]
    simp [h2, h3]
  · intro hostname h1 h2
    unfold initConsulAdvertiseURL
    rw [h1]
    simp [h2]
  · intro hostname h1 h2
    unfold initConsulAdvertiseURL
    rw [h1]
    simp [h2]
  · intro hostname cc2 h1
    unfold initConsulAdvertiseURL
    rw [h1]

/-- C9 -- Close attempts each of the three shutdown steps exactly when the
component was initialized, in the fixed order HTTP server then file system
then store, and returns the first non-nil error in that order (nil when all
executed steps succeed or nothing was initialized) while still executing
every later step. -/
theorem close_runs_all_steps (e : CloseEnv) :
    ((Event.httpClose ∈ (Close e).1) ↔ e.httpServer.isSome) ∧
    ((Event.fsUnmount ∈ (Close e).1) ↔ e.fileSystem.isSome) ∧
    ((Event.storeClose ∈ (Close e).1) ↔ e.store.isSome) ∧
    (e.httpServer.isSome → e.fileSystem.isSome →
      Precedes (Close e).1 .httpClose .fsUnmount) ∧
    (e.fileSystem.isSome → e.store.isSome →
      Precedes (Close e).1 .fsUnmount .storeClose) ∧
    (e.httpServer.isSome → e.store.isSome →
      Precedes (Close e).1 .httpClose .storeClose) ∧
    (∀ er, e.httpServer = some (some er) → (Close e).2 = some er) ∧
    (∀ er, benign e.httpServer → e.fileSystem = some (some er) →
      (Close e).2 = some er) ∧
    (∀ er, benign e.httpServer → benign e.fileSystem →
      e.store = some (some er) → (Close e).2 = some er) ∧
    (benign e.httpServer → benign e.fileSystem → benign e.store →
      (Close e).2 = none) := by
  refine ⟨?_, ?_, ?_, ?_, ?_, ?_, ?_, ?_, ?_, ?_⟩
  · rw [Close_events]
    rcases e.httpServer with _ | r1 <;> rcases e.fileSystem with _ | r2 <;>
      rcases e.store with _ | r3 <;> simp
  · rw [Close_events]
    rcases e.httpServer with _ | r1 <;> rcases e.fileSystem with _ | r2 <;>
      rcases e.store with _ | r3 <;> simp
  · rw [Close_events]
    rcases e.httpServer with _ | r1 <;> rcases e.fileSystem with _ | r2 <;>
      rcases e.store with _ | r3 <;> simp
  · intro h1 h2
    rw [Close_events, if_pos h1, if_pos h2]
    exact ⟨[.httpClose], [.fsUnmount]
      ++ (if e.store.isSome then [Event.storeClose] else []),
      by simp, by simp, by simp⟩
  · intro h2 h3
    rw [Close_events, if_pos h2, if_pos h3]
    exact ⟨(if e.httpServer.isSome then [Event.httpClose] else [])
        ++ [.fsUnmount], [.storeClose], by simp, by simp, by simp⟩
  · intro h1 h3
    rw [Close_events, if_pos h1, if_pos h3]
    exact ⟨[.httpClose],
      (if e.fileSystem.isSome then [Event.fsUnmount] else []) ++ [.storeClose],
      by simp, by simp, by simp⟩
  · intro er h1
    rw [Close_result, h1]
    rfl
  · intro er hb h2
    rcases hb with hb | hb <;> rw [Close_result, hb, h2] <;> rfl
  · intro er hb1 hb2 h3
    rcases hb1 with hb1 | hb1 <;> rcases hb2 with hb2 | hb2 <;>
      rw [Close_result, hb1, hb2, h3] <;> rfl
  · intro hb1 hb2 hb3
    rcases hb1 with hb1 | hb1 <;> rcases hb2 with hb2 | hb2 <;>
      rcases hb3 with hb3 | hb3 <;> rw [Close_result, hb1, hb2, hb3] <;> rfl

/-- C10 -- With an explicit config path, only that file is read and every
error from it (including non-existence) is returned; with no explicit path
the fixed search list (working directory, then non-empty home, then /etc) is
tried in order, paths whose file does not exist are skipped, any other read
error stops the search immediately with later paths untried, and when every
path is missing the search fails with the config-file-not-found error. -/
theorem parseConfig_search_behavior (fs : ConfigFS) :
    (∀ p, p ≠ "" →
      (parseConfig fs p).1 = [p] ∧
      ((parseConfig fs p).2 = .ok () ↔ fs.read p = .ok)) ∧
    (∀ h, h ≠ "" → configSearchPaths (some h)
      = ["litefs.yml", h ++ "/litefs.yml", "/etc/litefs.yml"]) ∧
    (configSearchPaths none = ["litefs.yml", "/etc/litefs.yml"]) ∧
    ((∀ p ∈ configSearchPaths fs.home,
        ∃ ap, fs.abs p = .ok ap ∧ fs.read ap = .notExist) →
      (parseConfig fs "").2 = .error "config file not found") ∧
    (∀ l1 p l2 ap er, configSearchPaths fs.home = l1 ++ p :: l2 →
      (∀ q ∈ l1, ∃ aq, fs.abs q = .ok aq ∧ fs.read aq = .notExist) →
      fs.abs p = .ok ap → fs.read ap = .failed er →
      (parseConfig fs "").2
          = .error ("cannot read config file at " ++ ap ++ ": " ++ er) ∧
      ∃ t, (parseConfig fs "").1 = t ++ [ap] ∧ t.length = l1.length) ∧
    (∀ l1 p l2 ap, configSearchPaths fs.home = l1 ++ p :: l2 →
      (∀ q ∈ l1, ∃ aq, fs.abs q = .ok aq ∧ fs.read aq = .notExist) →
      fs.abs p = .ok ap → fs.read ap = .ok →
      (parseConfig fs "").2 = .ok () ∧
      ∃ t, (parseConfig fs "").1 = t ++ [ap] ∧ t.length = l1.length) := by
  have hsearch : parseConfig fs "" = parseConfigLoop fs (configSearchPaths fs.home) := by
    unfold parseConfig
    simp
  refine ⟨?_, ?_, ?_, ?_, ?_, ?_⟩
  · intro p hp
    unfold parseConfig
    rw [if_pos hp]
    refine ⟨rfl, ?_⟩
    rcases hr : fs.read p with _ | _ | er <;> simp [readOutcomeErr]
  · intro h hh
    show (["litefs.yml"] ++ (if h ≠ "" then [h ++ "/litefs.yml"] else [])
        ++ ["/etc/litefs.yml"] : List String)
      = ["litefs.yml", h ++ "/litefs.yml", "/etc/litefs.yml"]
    rw [if_pos hh]
    rfl
  · rfl
  · intro hall
    rw [hsearch]
    exact (parseConfigLoop_all_notExist fs (configSearchPaths fs.home) hall).1
  · intro l1 p l2 ap er hpaths hskip ha hr
    rw [hsearch, hpaths]
    obtain ⟨hres, t, ht, hlen⟩ := parseConfigLoop_skip_prefix fs l1 hskip (p :: l2)
    have hstep : parseConfigLoop fs (p :: l2)
        = ([ap], .error ("cannot read config file at " ++ ap ++ ": " ++ er)) := by
      rw [parseConfigLoop_cons_ok fs p l2 ap ha,
        parseConfigTry_of_failed fs ap _ er hr]
    rw [hstep] at hres ht
    exact ⟨hres, t, ht, hlen⟩
  · intro l1 p l2 ap hpaths hskip ha hr
    rw [hsearch, hpaths]
    obtain ⟨hres, t, ht, hlen⟩ := parseConfigLoop_skip_prefix fs l1 hskip (p :: l2)
    have hstep : parseConfigLoop fs (p :: l2) = ([ap], .ok ()) := by
      rw [parseConfigLoop_cons_ok fs p l2 ap ha,
        parseConfigTry_of_ok fs ap _ hr]
    rw [hstep] at hres ht
    exact ⟨hres, t, ht, hlen⟩

end LiteFS
